import Mathlib

/-!
# hs_ring_buffer_demo

A shallow embedding of `main.c` (the demonstration driver of the `hs_ring_buffer`
library) together with a model of the ring buffer the driver exercises.

* `hs_time_get_current_timestamp_ms`, `consumer_thread`, `main` are translated from
  `main.c`.  Calls into the library and into libc are observable events; what they
  return is an argument of the embedding.
* The ring buffer itself (`hs_ring_buffer.c`) is not part of the sources at hand;
  its operations are modelled from the specification and marked as such.
-/

namespace HsRingBufferDemo

/-! ## Machine integers -/

/-- C `uint8_t`.  Bytes are only copied by this program, never computed with, so the
range bound plays no role and a byte is a natural number. -/
abbrev uint8_t := Nat

/-- Wrap an integer into the range of a signed 64-bit `long` / `time_t` (LP64). -/
def wrap_i64 (x : Int) : Int := (x + 2 ^ 63) % 2 ^ 64 - 2 ^ 63

/-- Conversion of an integer to `uint64_t` / `size_t`: reduction modulo `2 ^ 64`. -/
def to_u64 (x : Int) : Nat := (x % 2 ^ 64).toNat

/-! ## `main.c`: file-scope data -/

/-- `static uint8_t s_write_data[]` (main.c:21). -/
def s_write_data : List uint8_t := [0x01, 0x02, 0x03, 0x04, 0x05, 0x06, 0x07, 0x08, 0x09, 0x0A]

/-- Initial value of `static char s_read_mode` (main.c:19). -/
def s_read_mode_default : Char := 'b'

/-! ## `main.c`: `hs_time_get_current_timestamp_ms` -/

/-- C `struct timespec` as filled in by `clock_gettime`. -/
structure timespec where
  tv_sec : Int
  tv_nsec : Int
deriving DecidableEq, Repr

/-- What a call of `hs_time_get_current_timestamp_ms` leaves behind. -/
structure TimestampResult where
  /-- The `int` returned. -/
  ret : Int
  /-- The value of `*timestamp_ms` after the call (`none` for a NULL pointer). -/
  timestamp_ms : Option Nat
  /-- Whether `clock_gettime` was called. -/
  clock_read : Bool
deriving DecidableEq, Repr

/-- `hs_time_get_current_timestamp_ms` (main.c:31-47).  `timestamp_ms` is the
pointer argument (`none` is NULL, `some old` points at a `uint64_t` holding `old`);
`clock` is what `clock_gettime(CLOCK_REALTIME, _)` does when called: `none` when it
returns `-1`, `some ts` when it fills in `ts`.  The right-hand side of main.c:44 is
evaluated in signed 64-bit arithmetic and converted to `uint64_t` by the store. -/
def hs_time_get_current_timestamp_ms (timestamp_ms : Option Nat) (clock : Option timespec) :
    TimestampResult :=
  match timestamp_ms with
  | none => { ret := -1, timestamp_ms := none, clock_read := false }
  | some old =>
    match clock with
    | none => { ret := -2, timestamp_ms := some old, clock_read := true }
    | some time_spec =>
      { ret := 0
        timestamp_ms := some (to_u64 (wrap_i64
          (wrap_i64 (time_spec.tv_sec * 1000) + Int.tdiv time_spec.tv_nsec 1000000)))
        clock_read := true }

/-! ## `main.c`: observable events -/

/-- What the driver does that is visible from outside: calls into the ring buffer
library, thread creation, and `printf` (format string and arguments). -/
inductive Event where
  | printf (fmt : String) (args : List Int)
  | call_create
  | call_init (capacity : Nat)
  | call_pthread_create
  | call_read (read_data : List uint8_t) (max_len : Nat)
  | call_read_with_timeout (read_data : List uint8_t) (max_len : Nat) (timeout_ms : Int)
  | call_write (data : List uint8_t) (len : Nat)
deriving DecidableEq, Repr

/-- The pattern `current_timestamp = 0; hs_time_get_current_timestamp_ms(&current_timestamp);`
used before every timestamped `printf`: the value of `current_timestamp` afterwards. -/
def current_timestamp (clock : Option timespec) : Nat :=
  (hs_time_get_current_timestamp_ms (some 0) clock).timestamp_ms.getD 0

/-- The loop `for (i = 0; i < n; i++) printf("0x%02X ", buf[i]);` (main.c:78-81,
97-100, 182-185).  The array is only indexed meaningfully below its length; the
results below assume `n ≤ buf.length`. -/
def print_bytes (buf : List uint8_t) (n : Nat) : List Event :=
  (List.range n).map fun i => Event.printf "0x%02X " [((buf.getD i 0 : Nat) : Int)]

/-! ## `main.c`: `consumer_thread` -/

/-- One iteration of the `while (true)` loop of `consumer_thread` (main.c:65-116).
`s_read_mode` is the file-scope mode, `clock` the clock reading of this iteration,
and `ret`, `read_data` are what the read that is called returns and leaves in the
destination array. -/
def consumer_iteration (s_read_mode : Char) (clock : Option timespec)
    (ret : Int) (read_data : List uint8_t) : List Event :=
  let zeroed : List uint8_t := List.replicate 10 0
  if s_read_mode = 'b' then
    Event.call_read zeroed 10 ::
      (if ret > 0 then
        [Event.printf "[%ld] read data from ring buffer. data[len: %ld]: "
            [(current_timestamp clock : Int), ret]]
          ++ print_bytes read_data ret.toNat ++ [Event.printf "\n\n" []]
      else
        [Event.printf "read data from ring buffer failed. ret: %ld\n" [ret]])
  else
    Event.call_read_with_timeout zeroed 10 600 ::
      (if ret > 0 then
        [Event.printf "[%ld] read data from ring buffer success. data[len: %ld]: "
            [(current_timestamp clock : Int), ret]]
          ++ print_bytes read_data ret.toNat ++ [Event.printf "\n\n" []]
      else if ret = 0 then
        [Event.printf "[%ld] read data from ring buffer timeout\n\n"
            [(current_timestamp clock : Int)]]
      else
        [Event.printf "[%ld] read data from ring buffer failed. ret: %ld\n"
            [(current_timestamp clock : Int), ret]])

/-- The library calls among a list of events. -/
def Event.is_call : Event → Bool
  | .printf _ _ => false
  | _ => true

/-- The bytes printed by the `"0x%02X "` loop among a list of events. -/
def printed_bytes : List Event → List Int
  | [] => []
  | Event.printf fmt args :: es =>
    if fmt = "0x%02X " then args ++ printed_bytes es else printed_bytes es
  | _ :: es => printed_bytes es

/-! ## `main.c`: `main` -/

/-- What the calls `main` makes before its producer loop return. -/
structure MainEnv where
  /-- Whether `hs_ring_buffer_create` returned a non-NULL handle. -/
  create_ok : Bool
  /-- The value returned by `hs_ring_buffer_init(_, 1024)`. -/
  init_ret : Int
  /-- The value returned by `pthread_create`. -/
  pthread_create_ret : Int

/-- How the start-up part of `main` ends. -/
inductive MainOutcome where
  | returned (code : Int)
  | producer_loop
deriving DecidableEq, Repr

/-- State after the start-up part of `main`. -/
structure MainStart where
  s_read_mode : Char
  events : List Event
  outcome : MainOutcome

/-- `argv[1][0]` for a C string given by its characters before the terminating NUL:
the first character, or the NUL itself when the string is empty. -/
def first_char (s : List Char) : Char := s.headD (Char.ofNat 0)

/-- The part of `main` after the read mode is settled (main.c:144-173): create and
initialise the buffer, start the consumer thread. -/
def main_setup (s_read_mode : Char) (env : MainEnv) : MainStart :=
  if !env.create_ok then
    { s_read_mode := s_read_mode
      events := [Event.call_create, Event.printf "create ring buffer failed\n" []]
      outcome := .returned (-1) }
  else if env.init_ret ≠ 0 then
    { s_read_mode := s_read_mode
      events := [Event.call_create, Event.printf "create ring buffer success\n" [],
        Event.call_init 1024, Event.printf "init ring buffer failed. ret: %d\n" [env.init_ret]]
      outcome := .returned (-1) }
  else if env.pthread_create_ret ≠ 0 then
    { s_read_mode := s_read_mode
      events := [Event.call_create, Event.printf "create ring buffer success\n" [],
        Event.call_init 1024, Event.printf "init ring buffer success\n" [],
        Event.call_pthread_create,
        Event.printf "create consumer thread failed. ret: %d\n" [env.pthread_create_ret]]
      outcome := .returned (-1) }
  else
    { s_read_mode := s_read_mode
      events := [Event.call_create, Event.printf "create ring buffer success\n" [],
        Event.call_init 1024, Event.printf "init ring buffer success\n" [],
        Event.call_pthread_create]
      outcome := .producer_loop }

/-- The start-up part of `main` (main.c:130-173), up to the producer loop.  `argv`
holds the `argc` argument strings. -/
def main (argv : List (List Char)) (env : MainEnv) : MainStart :=
  let argc := argv.length
  if argc > 1 then
    let s_read_mode := first_char (argv.getD 1 [])
    if s_read_mode ≠ 'b' ∧ s_read_mode ≠ 'n' then
      { s_read_mode := s_read_mode
        events := [Event.printf "invalid read mode. use 'b' or 'n'\n" []]
        outcome := .returned (-1) }
    else main_setup s_read_mode env
  else main_setup s_read_mode_default env

/-- One iteration of the producer loop of `main` (main.c:175-195).  `ret` is the
`ssize_t` returned by `hs_ring_buffer_write`; the test `ret != write_len` compares it
with the `size_t` `write_len`, so `ret` is first converted to `size_t`. -/
def producer_iteration (clock : Option timespec) (ret : Int) : List Event :=
  let write_len : Nat := s_write_data.length
  [Event.printf "[%ld] write data to ring buffer. data[len: %ld]: "
      [(current_timestamp clock : Int), (write_len : Int)]]
    ++ print_bytes s_write_data write_len
    ++ [Event.printf "\n" [], Event.call_write s_write_data write_len]
    ++ (if to_u64 ret ≠ write_len then
          [Event.printf "write data to ring buffer failed. ret: %ld\n" [ret]]
        else [])

/-! ## The ring buffer (`hs_ring_buffer.h`), modelled from the specification -/

/-- Modelled from the spec: the error kinds of the ring buffer (`hs_ring_buffer.c` is
not among the sources; spec section 7 "Error taxonomy").  Each is returned to the
caller as a negative code. -/
inductive hs_error where
  | InvalidArgument
  | OutOfMemory
deriving DecidableEq, Repr

deriving instance DecidableEq for Except

/-- Modelled from the spec: the `RingBuffer` record of spec section 3, the type
`hs_ring_buffer_t` whose definition is not among the sources.  `initialized` tells a
handle fresh from `create` from one that went through `initialize`.  The lock and
the two conditions have no counterpart: every operation below is one atomic
transaction. -/
structure hs_ring_buffer_t where
  initialized : Bool
  capacity : Nat
  storage : List uint8_t
  head : Nat
  tail : Nat
  count : Nat
deriving DecidableEq, Repr

/-- Modelled from the spec: `create()` of spec section 4.1 (`hs_ring_buffer_create`,
absent from the sources): an uninitialized handle without storage, or NULL when the
handle itself cannot be allocated. -/
def hs_ring_buffer_create (alloc_ok : Bool) : Option hs_ring_buffer_t :=
  if alloc_ok then
    some { initialized := false, capacity := 0, storage := [], head := 0, tail := 0, count := 0 }
  else none

/-- Modelled from the spec: `initialize(capacity)` of spec section 4.1
(`hs_ring_buffer_init`, absent from the sources): allocates `capacity` bytes and
zeroes cursors and count; `InvalidArgument` for a NULL handle or `capacity == 0`,
`OutOfMemory` when the allocation fails.  Returns the result and the handle. -/
def hs_ring_buffer_init (ring_buffer : Option hs_ring_buffer_t) (capacity : Nat)
    (alloc_ok : Bool) : Except hs_error Unit × Option hs_ring_buffer_t :=
  match ring_buffer with
  | none => (.error .InvalidArgument, none)
  | some rb =>
    if capacity = 0 then (.error .InvalidArgument, some rb)
    else if !alloc_ok then (.error .OutOfMemory, some rb)
    else
      (.ok (), some { initialized := true, capacity := capacity,
                      storage := List.replicate capacity 0, head := 0, tail := 0, count := 0 })

/-- Modelled from the spec: storing one byte at `tail`, "advancing `tail` and `count`
with wrap-around" (spec section 4.1, write). -/
def put_byte (rb : hs_ring_buffer_t) (b : uint8_t) : hs_ring_buffer_t :=
  { rb with storage := rb.storage.set rb.tail b
            tail := (rb.tail + 1) % rb.capacity
            count := rb.count + 1 }

/-- Modelled from the spec: the copy loop of write: the bytes are stored one after
the other starting at `tail`. -/
def write_bytes (rb : hs_ring_buffer_t) : List uint8_t → hs_ring_buffer_t
  | [] => rb
  | b :: bs => write_bytes (put_byte rb b) bs

/-- Modelled from the spec: `write(data, len)` of spec section 4.1
(`hs_ring_buffer_write`, absent from the sources).  `data` is the source pointer
(`none` is NULL, `some d` points at the bytes `d`, at least `len` of them).
"computes `free = capacity - count`; writes `min(len, free)` bytes starting at
`tail`"; "returns the number of bytes actually written"; "fails with
`InvalidArgument` if `data` is null while `len > 0`, or if the buffer handle is
null/uninitialized".  Returns the result and the handle. -/
def hs_ring_buffer_write (ring_buffer : Option hs_ring_buffer_t)
    (data : Option (List uint8_t)) (len : Nat) :
    Except hs_error Nat × Option hs_ring_buffer_t :=
  match ring_buffer with
  | none => (.error .InvalidArgument, none)
  | some rb =>
    if !rb.initialized then (.error .InvalidArgument, some rb)
    else
      match data with
      | none =>
        if len > 0 then (.error .InvalidArgument, some rb) else (.ok 0, some rb)
      | some d =>
        let free := rb.capacity - rb.count
        let n := min len free
        (.ok n, some (write_bytes rb (d.take n)))

/-- Modelled from the spec: taking one byte at `head`, "advances `head` and
decrements `count` with wrap-around" (spec section 4.1, read). -/
def get_byte (rb : hs_ring_buffer_t) : uint8_t × hs_ring_buffer_t :=
  (rb.storage.getD rb.head 0,
   { rb with head := (rb.head + 1) % rb.capacity, count := rb.count - 1 })

/-- Modelled from the spec: the copy loop of read: `n` bytes are taken one after the
other starting at `head`. -/
def read_bytes (rb : hs_ring_buffer_t) : Nat → List uint8_t × hs_ring_buffer_t
  | 0 => ([], rb)
  | n + 1 =>
    let (b, rb1) := get_byte rb
    let (bs, rb2) := read_bytes rb1 n
    (b :: bs, rb2)

/-- How a read call ends. -/
inductive ReadOutcome where
  /-- The caller stays parked on `not_empty`; nothing was changed. -/
  | blocked
  /-- The call returned `ret`, leaving `out` in the destination and the buffer `rb`. -/
  | returned (ret : Except hs_error Nat) (out : Option (List uint8_t))
      (rb : Option hs_ring_buffer_t)
deriving DecidableEq, Repr

/-- Modelled from the spec: the success path shared by both reads: "copies
`min(count, max_len)` bytes starting at `head`, advances `head` and decrements
`count` with wrap-around, ..., returns bytes copied".  The bytes land at the front of
the destination `dst`. -/
def read_copy (rb : hs_ring_buffer_t) (dst : List uint8_t) (max_len : Nat) : ReadOutcome :=
  let n := min rb.count max_len
  let (bytes, rb1) := read_bytes rb n
  .returned (.ok n) (some (bytes ++ dst.drop n)) (some rb1)

/-- Modelled from the spec: `read(out, max_len)` of spec section 4.1
(`hs_ring_buffer_read`, absent from the sources), run on its own: "while
`count == 0` ... suspends the calling thread on `not_empty` indefinitely", "once
`count > 0`" the success path; "a negative code only on structural failure (null
arguments, destroyed buffer)".  `out` is the destination pointer (`none` is NULL,
`some dst` points at the bytes `dst`, at least `max_len` of them). -/
def hs_ring_buffer_read (ring_buffer : Option hs_ring_buffer_t)
    (out : Option (List uint8_t)) (max_len : Nat) : ReadOutcome :=
  match ring_buffer with
  | none => .returned (.error .InvalidArgument) out none
  | some rb =>
    if !rb.initialized then .returned (.error .InvalidArgument) out (some rb)
    else
      match out with
      | none => .returned (.error .InvalidArgument) none (some rb)
      | some dst =>
        if rb.count = 0 then .blocked
        else read_copy rb dst max_len

/-- Modelled from the spec: the bounded wait of `read_with_timeout`.  `arrivals` are
the writes other threads complete, one per wake-up, before the deadline; the wait
ends at the first wake-up that finds `count > 0`, or at the deadline when the
arrivals are used up. -/
def wait_not_empty (rb : hs_ring_buffer_t) : List (List uint8_t) → hs_ring_buffer_t
  | [] => rb
  | w :: ws =>
    if rb.count > 0 then rb
    else wait_not_empty ((hs_ring_buffer_write (some rb) (some w) w.length).2.getD rb) ws

/-- Modelled from the spec: `read_with_timeout(out, max_len, timeout_ms)` of spec
section 4.1 (`hs_ring_buffer_read_with_timeout`, absent from the sources):
"identical to `read` except the suspension on `not_empty` is bounded": "(a) data
becomes available before the deadline → same success path as `read`", "(b) deadline
elapses with `count` still 0 → returns `0`", "(c) structural failure (null
handle/buffer, negative timeout) → returns a negative code".  With `arrivals = []`
the call runs on its own. -/
def hs_ring_buffer_read_with_timeout (ring_buffer : Option hs_ring_buffer_t)
    (out : Option (List uint8_t)) (max_len : Nat) (timeout_ms : Int)
    (arrivals : List (List uint8_t)) : ReadOutcome :=
  match ring_buffer with
  | none => .returned (.error .InvalidArgument) out none
  | some rb =>
    if !rb.initialized then .returned (.error .InvalidArgument) out (some rb)
    else
      match out with
      | none => .returned (.error .InvalidArgument) none (some rb)
      | some dst =>
        if timeout_ms < 0 then .returned (.error .InvalidArgument) (some dst) (some rb)
        else
          let rb1 := wait_not_empty rb arrivals
          if rb1.count = 0 then .returned (.ok 0) (some dst) (some rb1)
          else read_copy rb1 dst max_len

/-- The handle a read call leaves, `ring_buffer` itself when the caller stays parked. -/
def ReadOutcome.handle (ring_buffer : Option hs_ring_buffer_t) :
    ReadOutcome → Option hs_ring_buffer_t
  | .blocked => ring_buffer
  | .returned _ _ rb => rb

/-- The value a read call returns, `none` when the caller stays parked. -/
def ReadOutcome.ret : ReadOutcome → Option (Except hs_error Nat)
  | .blocked => none
  | .returned r _ _ => some r

/-- The bytes a read call hands to its caller: the first `ret` bytes of the
destination after a successful return, nothing otherwise. -/
def ReadOutcome.data : ReadOutcome → List uint8_t
  | .returned (.ok n) (some out) _ => out.take n
  | _ => []

/-! ## Well-formed buffers and their contents -/

/-- The cursor invariant of spec section 3, for an initialized buffer. -/
structure WF (rb : hs_ring_buffer_t) : Prop where
  init : rb.initialized = true
  cap_pos : 0 < rb.capacity
  len : rb.storage.length = rb.capacity
  head_lt : rb.head < rb.capacity
  tail_lt : rb.tail < rb.capacity
  count_le : rb.count ≤ rb.capacity
  tail_eq : rb.tail = (rb.head + rb.count) % rb.capacity

/-- The valid unread bytes in FIFO order: `storage[head .. head+count) mod capacity`. -/
def contents (rb : hs_ring_buffer_t) : List uint8_t :=
  (List.range rb.count).map fun i => rb.storage.getD ((rb.head + i) % rb.capacity) 0

/-! ## Runs of calls on one buffer -/

/-- The handle `main` works with after `hs_ring_buffer_create` and
`hs_ring_buffer_init(_, capacity)` both succeeded. -/
def fresh (capacity : Nat) : Option hs_ring_buffer_t :=
  (hs_ring_buffer_init (hs_ring_buffer_create true) capacity true).2

/-- A call of the single producer (`write` of the bytes `data`, all of them offered)
or of the single consumer (`read` into a destination of `max_len` bytes). -/
inductive Op where
  | write (data : List uint8_t)
  | read (max_len : Nat)
deriving DecidableEq, Repr

/-- The buffer handle together with what the producer and the consumer have seen. -/
structure Sys where
  ring_buffer : Option hs_ring_buffer_t
  /-- The accepted bytes, in write order: the first `bytes_written` bytes of each write. -/
  accepted : List uint8_t
  /-- The bytes returned by the reads, in read order. -/
  delivered : List uint8_t
deriving DecidableEq, Repr

/-- One call and its bookkeeping; `none` when the call fails or never returns. -/
def exec_op (s : Sys) : Op → Option Sys
  | .write data =>
    match hs_ring_buffer_write s.ring_buffer (some data) data.length with
    | (.ok n, rb) =>
      some { ring_buffer := rb, accepted := s.accepted ++ data.take n, delivered := s.delivered }
    | (.error _, _) => none
  | .read max_len =>
    match hs_ring_buffer_read s.ring_buffer (some (List.replicate max_len 0)) max_len with
    | .returned (.ok n) (some out) rb =>
      some { ring_buffer := rb, accepted := s.accepted, delivered := s.delivered ++ out.take n }
    | _ => none

/-- A sequence of calls, one after the other. -/
def exec (s : Sys) : List Op → Option Sys
  | [] => some s
  | op :: ops =>
    match exec_op s op with
    | some s1 => exec s1 ops
    | none => none

/-- The occupancy seen through a handle (0 for NULL). -/
def occupancy : Option hs_ring_buffer_t → Nat
  | some rb => rb.count
  | none => 0

/-- Every read of the sequence is issued when `count > 0`. -/
def reads_when_nonempty (ring_buffer : Option hs_ring_buffer_t) : List Op → Bool
  | [] => true
  | .write data :: ops =>
    reads_when_nonempty (hs_ring_buffer_write ring_buffer (some data) data.length).2 ops
  | .read max_len :: ops =>
    decide (0 < occupancy ring_buffer) &&
    reads_when_nonempty
      ((hs_ring_buffer_read ring_buffer (some (List.replicate max_len 0)) max_len).handle
        ring_buffer) ops

/-- The producer and the consumer in front of the initially empty buffer. -/
def start (capacity : Nat) : Sys :=
  { ring_buffer := fresh capacity, accepted := [], delivered := [] }

/-- A call of the buffer API with arbitrary arguments. -/
inductive Call where
  | write (data : Option (List uint8_t)) (len : Nat)
  | read (out : Option (List uint8_t)) (max_len : Nat)
  | read_with_timeout (out : Option (List uint8_t)) (max_len : Nat) (timeout_ms : Int)
      (arrivals : List (List uint8_t))

/-- The handle after one call. -/
def Call.apply (ring_buffer : Option hs_ring_buffer_t) : Call → Option hs_ring_buffer_t
  | .write data len => (hs_ring_buffer_write ring_buffer data len).2
  | .read out max_len => (hs_ring_buffer_read ring_buffer out max_len).handle ring_buffer
  | .read_with_timeout out max_len timeout_ms arrivals =>
    (hs_ring_buffer_read_with_timeout ring_buffer out max_len timeout_ms arrivals).handle
      ring_buffer

/-- The handle after a sequence of calls. -/
def run (ring_buffer : Option hs_ring_buffer_t) (calls : List Call) : Option hs_ring_buffer_t :=
  calls.foldl Call.apply ring_buffer

/-! ## A timed read in front of a schedule of writes -/

/-- A buffer of capacity 4 holding `[1, 2, 3]` across the wrap-around (`head = 3`,
`tail = 2`), with one free slot. -/
def rb_three : hs_ring_buffer_t :=
  { initialized := true, capacity := 4, storage := [2, 3, 0, 1], head := 3, tail := 2, count := 3 }

/-! ## Lemmas on index arithmetic -/

theorem add_mod_ne {c a i j : Nat} (hi : i < j) (hj : j < c) :
    (a + i) % c ≠ (a + j) % c := by
  intro h
  have h1 : i ≡ j [MOD c] := Nat.ModEq.add_left_cancel' a h
  have h2 : i % c = j % c := h1
  rw [Nat.mod_eq_of_lt (lt_trans hi hj), Nat.mod_eq_of_lt hj] at h2
  omega

theorem add_mod_inj {c a i j : Nat} (hi : i < c) (hj : j < c)
    (h : (a + i) % c = (a + j) % c) : i = j := by
  rcases Nat.lt_trichotomy i j with hlt | heq | hgt
  · exact absurd h (add_mod_ne hlt hj)
  · exact heq
  · exact absurd h.symm (add_mod_ne hgt hi)

/-! ## Lemmas on `put_byte` and `write_bytes` -/

theorem put_byte_wf {rb : hs_ring_buffer_t} (h : WF rb) (hc : rb.count < rb.capacity)
    (b : uint8_t) : WF (put_byte rb b) where
  init := h.init
  cap_pos := h.cap_pos
  len := by simp [put_byte, h.len]
  head_lt := h.head_lt
  tail_lt := Nat.mod_lt _ h.cap_pos
  count_le := hc
  tail_eq := by
    show (rb.tail + 1) % rb.capacity = (rb.head + (rb.count + 1)) % rb.capacity
    rw [h.tail_eq, Nat.mod_add_mod, Nat.add_assoc]

theorem put_byte_contents {rb : hs_ring_buffer_t} (h : WF rb) (hc : rb.count < rb.capacity)
    (b : uint8_t) : contents (put_byte rb b) = contents rb ++ [b] := by
  unfold contents
  show List.map (fun i => (rb.storage.set rb.tail b).getD ((rb.head + i) % rb.capacity) 0)
      (List.range (rb.count + 1)) = _
  rw [List.range_succ, List.map_append]
  congr 1
  · apply List.map_congr_left
    intro i hi
    have hi' : i < rb.count := List.mem_range.mp hi
    have hne : rb.tail ≠ (rb.head + i) % rb.capacity := by
      rw [h.tail_eq]
      exact fun e => add_mod_ne hi' hc e.symm
    simp [List.getD_eq_getElem?_getD, List.getElem?_set, hne]
  · have ht : rb.tail < rb.storage.length := by rw [h.len]; exact h.tail_lt
    simp [List.getD_eq_getElem?_getD, List.getElem?_set, ← h.tail_eq, ht]

theorem write_bytes_spec (bs : List uint8_t) :
    ∀ {rb : hs_ring_buffer_t}, WF rb → rb.count + bs.length ≤ rb.capacity →
      WF (write_bytes rb bs) ∧
      contents (write_bytes rb bs) = contents rb ++ bs ∧
      (write_bytes rb bs).count = rb.count + bs.length ∧
      (write_bytes rb bs).head = rb.head ∧
      (write_bytes rb bs).capacity = rb.capacity ∧
      (write_bytes rb bs).tail = (rb.tail + bs.length) % rb.capacity := by
  induction bs with
  | nil =>
    intro rb h _
    simp [write_bytes, h, Nat.mod_eq_of_lt h.tail_lt]
  | cons b bs ih =>
    intro rb h hlen
    simp only [List.length_cons] at hlen
    have hc : rb.count < rb.capacity := by omega
    have h1 := put_byte_wf h hc b
    have hlen1 : (put_byte rb b).count + bs.length ≤ (put_byte rb b).capacity := by
      show rb.count + 1 + bs.length ≤ rb.capacity
      omega
    obtain ⟨w, c, n, hd, cp, tl⟩ := ih h1 hlen1
    refine ⟨w, ?_, ?_, hd, cp, ?_⟩
    · show contents (write_bytes (put_byte rb b) bs) = _
      rw [c, put_byte_contents h hc]
      simp
    · show (write_bytes (put_byte rb b) bs).count = _
      rw [n]
      show rb.count + 1 + bs.length = rb.count + (bs.length + 1)
      omega
    · show (write_bytes (put_byte rb b) bs).tail = _
      rw [tl]
      show ((rb.tail + 1) % rb.capacity + bs.length) % rb.capacity =
        (rb.tail + (bs.length + 1)) % rb.capacity
      rw [Nat.mod_add_mod]
      congr 1
      omega

theorem put_byte_tail_add (rb : hs_ring_buffer_t) (b : uint8_t) (i : Nat) :
    ((put_byte rb b).tail + i) % rb.capacity = (rb.tail + (i + 1)) % rb.capacity := by
  show ((rb.tail + 1) % rb.capacity + i) % rb.capacity = _
  rw [Nat.mod_add_mod]
  congr 1
  omega

theorem write_bytes_storage (bs : List uint8_t) :
    ∀ {rb : hs_ring_buffer_t}, 0 < rb.capacity → rb.storage.length = rb.capacity →
      rb.tail < rb.capacity → bs.length ≤ rb.capacity →
      (∀ i, i < bs.length →
        (write_bytes rb bs).storage.getD ((rb.tail + i) % rb.capacity) 0 = bs.getD i 0) ∧
      (∀ k, (∀ i, i < bs.length → k ≠ (rb.tail + i) % rb.capacity) →
        (write_bytes rb bs).storage.getD k 0 = rb.storage.getD k 0) ∧
      (write_bytes rb bs).storage.length = rb.storage.length := by
  induction bs with
  | nil =>
    intro rb _ _ _ _
    simp [write_bytes]
  | cons b bs ih =>
    intro rb hpos hl ht hlen
    simp only [List.length_cons] at hlen
    have hl1 : (put_byte rb b).storage.length = (put_byte rb b).capacity := by
      simp [put_byte, hl]
    have ht1 : (put_byte rb b).tail < (put_byte rb b).capacity := Nat.mod_lt _ hpos
    obtain ⟨a1, b1, l1⟩ := @ih (put_byte rb b) hpos hl1 ht1 (by
      show bs.length ≤ rb.capacity
      omega)
    have hcap : (put_byte rb b).capacity = rb.capacity := rfl
    rw [hcap] at a1 b1
    have hset : ∀ k, k ≠ rb.tail →
        (put_byte rb b).storage.getD k 0 = rb.storage.getD k 0 := by
      intro k hk
      simp [put_byte, List.getD_eq_getElem?_getD, List.getElem?_set, Ne.symm hk]
    have hself : (put_byte rb b).storage.getD rb.tail 0 = b := by
      have : rb.tail < rb.storage.length := by rw [hl]; exact ht
      simp [put_byte, List.getD_eq_getElem?_getD, List.getElem?_set, this]
    refine ⟨?_, ?_, ?_⟩
    · intro i hi
      show (write_bytes (put_byte rb b) bs).storage.getD _ 0 = _
      cases i with
      | zero =>
        rw [Nat.add_zero, Nat.mod_eq_of_lt ht, b1 rb.tail, hself]
        · rfl
        · intro j hj e
          rw [put_byte_tail_add] at e
          have e0 : (rb.tail + 0) % rb.capacity = (rb.tail + (j + 1)) % rb.capacity := by
            rw [Nat.add_zero, Nat.mod_eq_of_lt ht]
            exact e
          exact add_mod_ne (Nat.succ_pos j) (by omega) e0
      | succ j =>
        simp only [List.length_cons, Nat.add_lt_add_iff_right] at hi
        rw [← put_byte_tail_add rb b j, a1 j hi]
        rfl
    · intro k hk
      show (write_bytes (put_byte rb b) bs).storage.getD k 0 = _
      rw [b1 k, hset k]
      · have := hk 0 (by simp)
        rwa [Nat.add_zero, Nat.mod_eq_of_lt ht] at this
      · intro j hj
        rw [put_byte_tail_add]
        exact hk (j + 1) (by simpa using hj)
    · show (write_bytes (put_byte rb b) bs).storage.length = _
      rw [l1]
      simp [put_byte]

/-! ## Lemmas on `get_byte` and `read_bytes` -/

theorem get_byte_wf {rb : hs_ring_buffer_t} (h : WF rb) (hc : 0 < rb.count) :
    WF (get_byte rb).2 where
  init := h.init
  cap_pos := h.cap_pos
  len := h.len
  head_lt := Nat.mod_lt _ h.cap_pos
  tail_lt := h.tail_lt
  count_le := by
    show rb.count - 1 ≤ rb.capacity
    have := h.count_le
    omega
  tail_eq := by
    show rb.tail = ((rb.head + 1) % rb.capacity + (rb.count - 1)) % rb.capacity
    rw [Nat.mod_add_mod, h.tail_eq]
    congr 1
    omega

theorem get_byte_contents {rb : hs_ring_buffer_t} (h : WF rb) (hc : 0 < rb.count) :
    contents rb = (get_byte rb).1 :: contents (get_byte rb).2 := by
  unfold contents
  show _ = rb.storage.getD rb.head 0 ::
    List.map (fun i => rb.storage.getD (((rb.head + 1) % rb.capacity + i) % rb.capacity) 0)
      (List.range (rb.count - 1))
  obtain ⟨n, hn⟩ : ∃ n, rb.count = n + 1 := ⟨rb.count - 1, by omega⟩
  rw [hn, List.range_succ_eq_map, List.map_cons, List.map_map, Nat.add_sub_cancel,
    Nat.add_zero, Nat.mod_eq_of_lt h.head_lt]
  congr 1
  apply List.map_congr_left
  intro i _
  show rb.storage.getD ((rb.head + (i + 1)) % rb.capacity) 0 = _
  rw [Nat.mod_add_mod]
  congr 2
  omega

theorem read_bytes_spec (n : Nat) :
    ∀ {rb : hs_ring_buffer_t}, WF rb → n ≤ rb.count →
      WF (read_bytes rb n).2 ∧
      contents rb = (read_bytes rb n).1 ++ contents (read_bytes rb n).2 ∧
      (read_bytes rb n).1.length = n ∧
      (read_bytes rb n).2.count = rb.count - n ∧
      (read_bytes rb n).2.capacity = rb.capacity ∧
      (read_bytes rb n).2.tail = rb.tail ∧
      (read_bytes rb n).2.head = (rb.head + n) % rb.capacity ∧
      (read_bytes rb n).2.storage = rb.storage := by
  induction n with
  | zero =>
    intro rb h _
    simp [read_bytes, h, Nat.mod_eq_of_lt h.head_lt]
  | succ n ih =>
    intro rb h hn
    have hc : 0 < rb.count := by omega
    have h1 := get_byte_wf h hc
    have hn1 : n ≤ (get_byte rb).2.count := by
      show n ≤ rb.count - 1
      omega
    obtain ⟨w, c, l, k, cp, tl, hd, st⟩ := ih h1 hn1
    have e1 : (read_bytes rb (n + 1)).1 = (get_byte rb).1 :: (read_bytes (get_byte rb).2 n).1 := rfl
    have e2 : (read_bytes rb (n + 1)).2 = (read_bytes (get_byte rb).2 n).2 := rfl
    rw [e1, e2]
    refine ⟨w, ?_, by simp [l], ?_, cp, tl, ?_, st⟩
    · rw [get_byte_contents h hc, c]
      rfl
    · rw [k]
      show rb.count - 1 - n = rb.count - (n + 1)
      omega
    · rw [hd]
      show ((rb.head + 1) % rb.capacity + n) % rb.capacity = _
      rw [Nat.mod_add_mod]
      congr 1
      omega

/-! ## Lemmas on the API functions -/

theorem fresh_wf {capacity : Nat} (h : 0 < capacity) :
    ∃ rb, fresh capacity = some rb ∧ WF rb ∧ rb.capacity = capacity ∧ rb.count = 0 := by
  refine ⟨{ initialized := true, capacity := capacity, storage := List.replicate capacity 0,
            head := 0, tail := 0, count := 0 }, ?_, ?_, rfl, rfl⟩
  · simp [fresh, hs_ring_buffer_create, hs_ring_buffer_init, Nat.pos_iff_ne_zero.mp h]
  · exact { init := rfl, cap_pos := h, len := by simp, head_lt := h, tail_lt := h,
            count_le := Nat.zero_le _, tail_eq := by simp }

theorem write_some_eq {rb : hs_ring_buffer_t} (h : WF rb) (d : List uint8_t) (len : Nat) :
    hs_ring_buffer_write (some rb) (some d) len =
      (.ok (min len (rb.capacity - rb.count)),
       some (write_bytes rb (d.take (min len (rb.capacity - rb.count))))) := by
  simp [hs_ring_buffer_write, h.init]

theorem write_wf {rb : hs_ring_buffer_t} (h : WF rb) (data : Option (List uint8_t))
    (len : Nat) :
    ∃ rb1, (hs_ring_buffer_write (some rb) data len).2 = some rb1 ∧ WF rb1 ∧
      rb1.capacity = rb.capacity := by
  cases data with
  | none =>
    refine ⟨rb, ?_, h, rfl⟩
    simp only [hs_ring_buffer_write, h.init]
    by_cases hl : len > 0 <;> simp [hl]
  | some d =>
    rw [write_some_eq h]
    have hlen : rb.count + (d.take (min len (rb.capacity - rb.count))).length ≤ rb.capacity := by
      have := h.count_le
      simp only [List.length_take]
      omega
    obtain ⟨w, _, _, _, cp, _⟩ := write_bytes_spec _ h hlen
    exact ⟨_, rfl, w, cp⟩

theorem read_copy_eq {rb : hs_ring_buffer_t} (dst : List uint8_t) (max_len : Nat) :
    read_copy rb dst max_len =
      .returned (.ok (min rb.count max_len))
        (some ((read_bytes rb (min rb.count max_len)).1 ++ dst.drop (min rb.count max_len)))
        (some (read_bytes rb (min rb.count max_len)).2) := rfl

theorem read_some_eq {rb : hs_ring_buffer_t} (h : WF rb) (hc : 0 < rb.count)
    (dst : List uint8_t) (max_len : Nat) :
    hs_ring_buffer_read (some rb) (some dst) max_len = read_copy rb dst max_len := by
  simp [hs_ring_buffer_read, h.init, Nat.pos_iff_ne_zero.mp hc]

theorem read_wf {rb : hs_ring_buffer_t} (h : WF rb) (out : Option (List uint8_t))
    (max_len : Nat) :
    ∃ rb1, (hs_ring_buffer_read (some rb) out max_len).handle (some rb) = some rb1 ∧ WF rb1 ∧
      rb1.capacity = rb.capacity := by
  cases out with
  | none => exact ⟨rb, by simp [hs_ring_buffer_read, h.init, ReadOutcome.handle], h, rfl⟩
  | some dst =>
    by_cases hc : rb.count = 0
    · exact ⟨rb, by simp [hs_ring_buffer_read, h.init, hc, ReadOutcome.handle], h, rfl⟩
    · rw [read_some_eq h (Nat.pos_of_ne_zero hc), read_copy_eq]
      obtain ⟨w, _, _, _, cp, _⟩ := read_bytes_spec (min rb.count max_len) h (Nat.min_le_left _ _)
      exact ⟨_, rfl, w, cp⟩

theorem wait_not_empty_wf (arrivals : List (List uint8_t)) :
    ∀ {rb : hs_ring_buffer_t}, WF rb →
      WF (wait_not_empty rb arrivals) ∧ (wait_not_empty rb arrivals).capacity = rb.capacity := by
  induction arrivals with
  | nil => intro rb h; exact ⟨h, rfl⟩
  | cons w ws ih =>
    intro rb h
    by_cases hc : 0 < rb.count
    · simp only [wait_not_empty, hc, if_true]
      exact ⟨h, trivial⟩
    · simp only [wait_not_empty, hc, if_false]
      obtain ⟨rb1, e, w1, cp⟩ := write_wf h (some w) w.length
      rw [e, Option.getD_some]
      obtain ⟨w2, cp2⟩ := ih w1
      exact ⟨w2, cp2.trans cp⟩

theorem read_with_timeout_wf {rb : hs_ring_buffer_t} (h : WF rb)
    (out : Option (List uint8_t)) (max_len : Nat) (timeout_ms : Int)
    (arrivals : List (List uint8_t)) :
    ∃ rb1, (hs_ring_buffer_read_with_timeout (some rb) out max_len timeout_ms arrivals).handle
        (some rb) = some rb1 ∧ WF rb1 ∧ rb1.capacity = rb.capacity := by
  cases out with
  | none =>
    exact ⟨rb, by simp [hs_ring_buffer_read_with_timeout, h.init, ReadOutcome.handle], h, rfl⟩
  | some dst =>
    by_cases ht : timeout_ms < 0
    · exact ⟨rb, by simp [hs_ring_buffer_read_with_timeout, h.init, ht, ReadOutcome.handle],
        h, rfl⟩
    · obtain ⟨w1, cp1⟩ := wait_not_empty_wf arrivals h
      by_cases hc : (wait_not_empty rb arrivals).count = 0
      · exact ⟨_, by simp [hs_ring_buffer_read_with_timeout, h.init, ht, hc, ReadOutcome.handle],
          w1, cp1⟩
      · obtain ⟨w, _, _, _, cp, _⟩ := read_bytes_spec
          (min (wait_not_empty rb arrivals).count max_len) w1 (Nat.min_le_left _ _)
        refine ⟨_, ?_, w, cp.trans cp1⟩
        simp [hs_ring_buffer_read_with_timeout, h.init, ht, hc, read_copy_eq,
          ReadOutcome.handle]

theorem call_apply_wf {rb : hs_ring_buffer_t} (h : WF rb) (c : Call) :
    ∃ rb1, c.apply (some rb) = some rb1 ∧ WF rb1 ∧ rb1.capacity = rb.capacity := by
  cases c with
  | write data len => exact write_wf h data len
  | read out max_len => exact read_wf h out max_len
  | read_with_timeout out max_len timeout_ms arrivals =>
    exact read_with_timeout_wf h out max_len timeout_ms arrivals

theorem run_wf (calls : List Call) :
    ∀ {rb : hs_ring_buffer_t}, WF rb →
      ∃ rb1, run (some rb) calls = some rb1 ∧ WF rb1 ∧ rb1.capacity = rb.capacity := by
  induction calls with
  | nil => intro rb h; exact ⟨rb, rfl, h, rfl⟩
  | cons c cs ih =>
    intro rb h
    obtain ⟨rb1, e1, w1, cp1⟩ := call_apply_wf h c
    obtain ⟨rb2, e2, w2, cp2⟩ := ih w1
    refine ⟨rb2, ?_, w2, cp2.trans cp1⟩
    show run (c.apply (some rb)) cs = some rb2
    rw [e1, e2]

theorem wf_head_eq_tail_iff {rb : hs_ring_buffer_t} (h : WF rb) :
    rb.head = rb.tail ↔ rb.count = 0 ∨ rb.count = rb.capacity := by
  constructor
  · intro e
    by_contra hne
    simp only [not_or] at hne
    have hlt : rb.count < rb.capacity := lt_of_le_of_ne h.count_le hne.2
    have e1 : (rb.head + 0) % rb.capacity = (rb.head + rb.count) % rb.capacity := by
      rw [Nat.add_zero, Nat.mod_eq_of_lt h.head_lt, ← h.tail_eq]
      exact e
    exact add_mod_ne (Nat.pos_of_ne_zero hne.1) hlt e1
  · rintro (e | e)
    · rw [h.tail_eq, e, Nat.add_zero, Nat.mod_eq_of_lt h.head_lt]
    · rw [h.tail_eq, e, Nat.add_mod_right, Nat.mod_eq_of_lt h.head_lt]

/-! ## The claims -/

/-- C8: starting from an initialized buffer (`head = tail = count = 0`,
`capacity > 0`), every sequence of `write`, `read` and `read_with_timeout` calls, with
whatever arguments, leaves a buffer with the same capacity, `count ≤ capacity`,
`head < capacity`, `tail < capacity` and `tail = (head + count) mod capacity` (each
single call preserves the invariant `WF` and the capacity); hence `head = tail`
exactly when `count = 0` or `count = capacity`. -/
theorem cursor_invariant (capacity : Nat) (hcap : 0 < capacity) (calls : List Call) :
    (∃ rb0, fresh capacity = some rb0 ∧ rb0.head = 0 ∧ rb0.tail = 0 ∧ rb0.count = 0 ∧
      rb0.capacity = capacity) ∧
    (∀ (rb : hs_ring_buffer_t) (c : Call), WF rb →
      ∃ rb1, c.apply (some rb) = some rb1 ∧ WF rb1 ∧ rb1.capacity = rb.capacity) ∧
    ∃ rb, run (fresh capacity) calls = some rb ∧
      rb.capacity = capacity ∧ rb.count ≤ rb.capacity ∧ rb.head < rb.capacity ∧
      rb.tail < rb.capacity ∧ rb.tail = (rb.head + rb.count) % rb.capacity ∧
      (rb.head = rb.tail ↔ rb.count = 0 ∨ rb.count = rb.capacity) := by
  obtain ⟨rb0, e0, w0, cp0, c0⟩ := fresh_wf hcap
  refine ⟨⟨rb0, e0, ?_, ?_, c0, cp0⟩, fun _ c w => call_apply_wf w c, ?_⟩
  · simp only [fresh, hs_ring_buffer_create, hs_ring_buffer_init, if_true,
      Nat.pos_iff_ne_zero.mp hcap] at e0
    simp at e0
    rw [← e0]
  · simp only [fresh, hs_ring_buffer_create, hs_ring_buffer_init, if_true,
      Nat.pos_iff_ne_zero.mp hcap] at e0
    simp at e0
    rw [← e0]
  · obtain ⟨rb, e, w, cp⟩ := run_wf calls w0
    rw [e0]
    exact ⟨rb, e, cp.trans cp0, w.count_le, w.head_lt, w.tail_lt, w.tail_eq,
      wf_head_eq_tail_iff w⟩

/-- Witness of C8: capacity 4; five bytes offered (four fit), a read of three, a
timed read on NULL, a write of two that wraps around, a timed read that is served by
an arrival. -/
theorem cursor_invariant_witness :
    ∃ rb, run (fresh 4)
        [.write (some [1, 2, 3, 4, 5]) 5, .read (some [0, 0, 0]) 3,
         .read_with_timeout none 3 600 [], .write (some [6, 7]) 2,
         .read_with_timeout (some [0, 0, 0, 0]) 4 600 [[8]]] = some rb ∧
      rb.capacity = 4 ∧ rb.count ≤ rb.capacity ∧ rb.head < rb.capacity ∧
      rb.tail < rb.capacity ∧ rb.tail = (rb.head + rb.count) % rb.capacity ∧
      (rb.head = rb.tail ↔ rb.count = 0 ∨ rb.count = rb.capacity) :=
  (cursor_invariant 4 (by decide) _).2.2

/-- C2: on an initialized buffer, `write(data, len)` returns exactly
`min(len, capacity - count)`, stores exactly the first that many bytes of `data`
starting at `tail` with wrap-around (every other slot keeps its byte), increases
`count` by the returned value, advances `tail` by it modulo `capacity`, leaves `head`,
`capacity` and the already stored bytes unchanged, and appends the stored bytes to the
FIFO contents; on a full buffer it returns 0 and changes nothing. -/
theorem write_truncating (rb : hs_ring_buffer_t) (data : List uint8_t) (len : Nat)
    (h : WF rb) (hlen : len ≤ data.length) :
    ∃ rb1, hs_ring_buffer_write (some rb) (some data) len =
        (.ok (min len (rb.capacity - rb.count)), some rb1) ∧
      (∀ i, i < min len (rb.capacity - rb.count) →
        rb1.storage.getD ((rb.tail + i) % rb.capacity) 0 = data.getD i 0) ∧
      (∀ k, (∀ i, i < min len (rb.capacity - rb.count) → k ≠ (rb.tail + i) % rb.capacity) →
        rb1.storage.getD k 0 = rb.storage.getD k 0) ∧
      rb1.storage.length = rb.storage.length ∧
      rb1.count = rb.count + min len (rb.capacity - rb.count) ∧
      rb1.tail = (rb.tail + min len (rb.capacity - rb.count)) % rb.capacity ∧
      rb1.head = rb.head ∧ rb1.capacity = rb.capacity ∧
      (∀ j, j < rb.count →
        rb1.storage.getD ((rb.head + j) % rb.capacity) 0 =
          rb.storage.getD ((rb.head + j) % rb.capacity) 0) ∧
      contents rb1 = contents rb ++ data.take (min len (rb.capacity - rb.count)) ∧
      (rb.count = rb.capacity → min len (rb.capacity - rb.count) = 0 ∧ rb1 = rb) := by
  have hcount := h.count_le
  have hn : (data.take (min len (rb.capacity - rb.count))).length =
      min len (rb.capacity - rb.count) := by
    simp only [List.length_take]
    omega
  obtain ⟨_, c, n, hd, cp, tl⟩ := write_bytes_spec (data.take (min len (rb.capacity - rb.count)))
    h (by rw [hn]; omega)
  obtain ⟨sa, sb, sl⟩ := write_bytes_storage (data.take (min len (rb.capacity - rb.count)))
    h.cap_pos h.len h.tail_lt (by rw [hn]; omega)
  rw [hn] at n tl sa sb
  refine ⟨_, write_some_eq h data len, ?_, sb, sl, n, tl, hd, cp, ?_, c, ?_⟩
  · intro i hi
    rw [sa i hi, List.getD_eq_getElem?_getD, List.getD_eq_getElem?_getD, List.getElem?_take]
    simp [hi]
  · intro j hj
    apply sb
    intro i hi e
    rw [h.tail_eq, Nat.mod_add_mod, Nat.add_assoc] at e
    exact add_mod_ne (show j < rb.count + i by omega) (by omega) e
  · intro hfull
    have h0 : min len (rb.capacity - rb.count) = 0 := by omega
    refine ⟨h0, ?_⟩
    rw [h0]
    rfl

/-- Witness of C2: capacity 4 holding `[1, 2, 3]` with `head = tail = 3`
(`count = 3`, one free slot), and a write of two bytes. -/
theorem write_truncating_witness :
    ∃ rb1, hs_ring_buffer_write
        (some rb_three) (some [8, 9]) 2 =
        (.ok (min 2 (4 - 3)), some rb1) ∧ rb1.storage = [2, 3, 8, 1] ∧ rb1.tail = 3 ∧
        rb1.count = 4 := by
  obtain ⟨rb1, e, _⟩ := write_truncating
    rb_three [8, 9] 2
    { init := rfl, cap_pos := by decide, len := rfl, head_lt := by decide,
      tail_lt := by decide, count_le := by decide, tail_eq := by decide }
    (by decide)
  refine ⟨rb1, e, ?_⟩
  have e2 : hs_ring_buffer_write
      (some rb_three) (some [8, 9]) 2 =
      (.ok 1, some { initialized := true, capacity := 4, storage := [2, 3, 8, 1],
                     head := 3, tail := 3, count := 4 }) := by decide
  rw [e2] at e
  have e3 := (Prod.mk.inj e).2
  rw [← Option.some.inj e3]
  exact ⟨rfl, rfl, rfl⟩

/-- C4: invalid arguments are rejected as an error result and never change the
buffer: `initialize(0)` fails with `InvalidArgument`; `write(NULL, len)` with
`len > 0` fails with `InvalidArgument` and leaves the buffer as it was; `write` on a
NULL or uninitialized handle fails with `InvalidArgument`; and `write(ptr, 0)` with
`ptr` non-NULL on an initialized buffer succeeds, returns 0 and leaves the buffer as
it was. -/
theorem invalid_arguments_rejected :
    (∀ (ring_buffer : Option hs_ring_buffer_t) (alloc_ok : Bool),
      hs_ring_buffer_init ring_buffer 0 alloc_ok = (.error .InvalidArgument, ring_buffer)) ∧
    (∀ (ring_buffer : Option hs_ring_buffer_t) (len : Nat), 0 < len →
      hs_ring_buffer_write ring_buffer none len = (.error .InvalidArgument, ring_buffer)) ∧
    (∀ (data : Option (List uint8_t)) (len : Nat),
      hs_ring_buffer_write none data len = (.error .InvalidArgument, none)) ∧
    (∀ (rb : hs_ring_buffer_t) (data : Option (List uint8_t)) (len : Nat),
      rb.initialized = false →
      hs_ring_buffer_write (some rb) data len = (.error .InvalidArgument, some rb)) ∧
    (∀ (rb : hs_ring_buffer_t) (data : List uint8_t), rb.initialized = true →
      hs_ring_buffer_write (some rb) (some data) 0 = (.ok 0, some rb)) := by
  refine ⟨?_, ?_, ?_, ?_, ?_⟩
  · intro ring_buffer alloc_ok
    cases ring_buffer <;> simp [hs_ring_buffer_init]
  · intro ring_buffer len hlen
    cases ring_buffer with
    | none => rfl
    | some rb =>
      by_cases hi : rb.initialized = true <;> simp [hs_ring_buffer_write, hi, hlen]
  · intro data len
    rfl
  · intro rb data len hi
    simp [hs_ring_buffer_write, hi]
  · intro rb data hi
    simp [hs_ring_buffer_write, hi, write_bytes]

/-- Witness of C4 on the buffer of capacity 4 holding `[1, 2, 3]`: `write(NULL, 5)`
is rejected and `write(ptr, 0)` returns 0, both leaving the buffer as it was. -/
theorem invalid_arguments_rejected_witness :
    hs_ring_buffer_write
        (some rb_three) none 5 =
      (.error .InvalidArgument,
       some rb_three) ∧
    hs_ring_buffer_write
        (some rb_three) (some [9]) 0 =
      (.ok 0,
       some rb_three) :=
  ⟨invalid_arguments_rejected.2.1 _ 5 (by decide),
   invalid_arguments_rejected.2.2.2.2 _ [9] rfl⟩

/-! ## Lemmas on the bounded wait -/

theorem exec_op_fifo {s : Sys} {rb : hs_ring_buffer_t} (op : Op)
    (hs : s.ring_buffer = some rb) (h : WF rb)
    (hfifo : s.accepted = s.delivered ++ contents rb)
    (hr : reads_when_nonempty s.ring_buffer [op] = true) :
    ∃ s1 rb1, exec_op s op = some s1 ∧ s1.ring_buffer = some rb1 ∧ WF rb1 ∧
      s1.accepted = s1.delivered ++ contents rb1 ∧
      reads_when_nonempty s.ring_buffer [op] = true ∧
      (∀ ops, reads_when_nonempty s.ring_buffer (op :: ops) = true →
        reads_when_nonempty s1.ring_buffer ops = true) := by
  have hcount := h.count_le
  cases op with
  | write data =>
    have hlen : rb.count + (data.take (min data.length (rb.capacity - rb.count))).length ≤
        rb.capacity := by
      simp only [List.length_take]
      omega
    obtain ⟨w, c, _⟩ := write_bytes_spec _ h hlen
    refine ⟨{ ring_buffer := some (write_bytes rb
                (data.take (min data.length (rb.capacity - rb.count)))),
              accepted := s.accepted ++ data.take (min data.length (rb.capacity - rb.count)),
              delivered := s.delivered }, _, ?_, rfl, w, ?_, hr, ?_⟩
    · simp only [exec_op, hs, write_some_eq h]
    · simp only [c, hfifo, List.append_assoc]
    · intro ops hops
      simpa only [reads_when_nonempty, hs, write_some_eq h] using hops
  | read max_len =>
    have hc : 0 < rb.count := by
      simpa [reads_when_nonempty, hs, occupancy] using hr
    obtain ⟨w, c, l, _⟩ := read_bytes_spec (min rb.count max_len) h (Nat.min_le_left _ _)
    refine ⟨{ ring_buffer := some (read_bytes rb (min rb.count max_len)).2,
              accepted := s.accepted,
              delivered := s.delivered ++ (read_bytes rb (min rb.count max_len)).1 },
            _, ?_, rfl, w, ?_, hr, ?_⟩
    · simp only [exec_op, hs, read_some_eq h hc, read_copy_eq, List.take_left' l]
    · simp only [hfifo, c, List.append_assoc]
    · intro ops hops
      simp only [reads_when_nonempty, hs, read_some_eq h hc, read_copy_eq, ReadOutcome.handle,
        Bool.and_eq_true] at hops
      exact hops.2

theorem exec_fifo (ops : List Op) :
    ∀ {s : Sys} {rb : hs_ring_buffer_t}, s.ring_buffer = some rb → WF rb →
      s.accepted = s.delivered ++ contents rb →
      reads_when_nonempty s.ring_buffer ops = true →
      ∃ s1 rb1, exec s ops = some s1 ∧ s1.ring_buffer = some rb1 ∧ WF rb1 ∧
        s1.accepted = s1.delivered ++ contents rb1 := by
  induction ops with
  | nil =>
    intro s rb hs h hfifo _
    exact ⟨s, rb, rfl, hs, h, hfifo⟩
  | cons op ops ih =>
    intro s rb hs h hfifo hr
    have hr1 : reads_when_nonempty s.ring_buffer [op] = true := by
      cases op with
      | write data => rfl
      | read max_len =>
        simp only [reads_when_nonempty, Bool.and_eq_true] at hr ⊢
        exact ⟨hr.1, trivial⟩
    obtain ⟨s1, rb1, e1, hs1, w1, f1, _, next⟩ := exec_op_fifo op hs h hfifo hr1
    obtain ⟨s2, rb2, e2, hs2, w2, f2⟩ := ih hs1 w1 f1 (next ops hr)
    refine ⟨s2, rb2, ?_, hs2, w2, f2⟩
    simp only [exec, e1, e2]

/-- C1: FIFO round trip.  For every capacity `> 0` and every finite sequence of
`write(data_i)` and `read(max_len_i)` calls on the initially empty buffer, each read
issued when `count > 0`, every call returns, the bytes returned by the reads
(concatenated in read order) are an initial segment of the accepted bytes (the first
`bytes_written_i` bytes of each `data_i`, concatenated in write order), and the two are
equal once the buffer is drained.  Scenarios: capacity 4, `write [1,2,3,4,5]` returns
4 and `read(max_len = 10)` returns the 4 bytes `[1,2,3,4]`; capacity 1024, `write` of
the payload `0x01..0x0A` returns 10 and `read(max_len = 10)`, as well as
`read_with_timeout(max_len = 10, 600)`, returns the same 10 bytes. -/
theorem fifo_round_trip :
    (∀ (capacity : Nat) (ops : List Op), 0 < capacity →
      reads_when_nonempty (fresh capacity) ops = true →
      ∃ s, exec (start capacity) ops = some s ∧
        s.delivered <+: s.accepted ∧
        (occupancy s.ring_buffer = 0 → s.delivered = s.accepted)) ∧
    ((hs_ring_buffer_write (fresh 4) (some [1, 2, 3, 4, 5]) 5).1 = .ok 4 ∧
      (hs_ring_buffer_read (hs_ring_buffer_write (fresh 4) (some [1, 2, 3, 4, 5]) 5).2
        (some (List.replicate 10 0)) 10).ret = some (.ok 4) ∧
      (hs_ring_buffer_read (hs_ring_buffer_write (fresh 4) (some [1, 2, 3, 4, 5]) 5).2
        (some (List.replicate 10 0)) 10).data = [1, 2, 3, 4]) ∧
    ((hs_ring_buffer_write (fresh 1024) (some s_write_data) 10).1 = .ok 10 ∧
      (hs_ring_buffer_read (hs_ring_buffer_write (fresh 1024) (some s_write_data) 10).2
        (some (List.replicate 10 0)) 10).ret = some (.ok 10) ∧
      (hs_ring_buffer_read (hs_ring_buffer_write (fresh 1024) (some s_write_data) 10).2
        (some (List.replicate 10 0)) 10).data = s_write_data ∧
      (hs_ring_buffer_read_with_timeout
        (hs_ring_buffer_write (fresh 1024) (some s_write_data) 10).2
        (some (List.replicate 10 0)) 10 600 []).ret = some (.ok 10) ∧
      (hs_ring_buffer_read_with_timeout
        (hs_ring_buffer_write (fresh 1024) (some s_write_data) 10).2
        (some (List.replicate 10 0)) 10 600 []).data = s_write_data) := by
  refine ⟨?_, by decide, ?_⟩
  · intro capacity ops hcap hr
    obtain ⟨rb0, e0, w0, _, c0⟩ := fresh_wf hcap
    have hfifo : (start capacity).accepted = (start capacity).delivered ++ contents rb0 := by
      simp [start, contents, c0]
    obtain ⟨s, rb, e, hs, _, f⟩ := @exec_fifo ops (start capacity) rb0 e0 w0 hfifo hr
    refine ⟨s, e, ?_, ?_⟩
    · rw [f]
      exact List.prefix_append _ _
    · intro hocc
      rw [hs] at hocc
      have : contents rb = [] := by
        simp only [occupancy] at hocc
        simp [contents, hocc]
      rw [f, this, List.append_nil]
  · decide

/-- Witness of C1: capacity 4; `[1,2,3,4,5]` offered (4 accepted), 2 read, `[6,7,8]`
offered (2 accepted, wrapping around), 10 asked for (4 read): the buffer is drained and
the six delivered bytes are the six accepted ones. -/
theorem fifo_round_trip_witness :
    ∃ s, exec (start 4) [.write [1, 2, 3, 4, 5], .read 2, .write [6, 7, 8], .read 10] = some s ∧
      s.delivered <+: s.accepted ∧
      (occupancy s.ring_buffer = 0 → s.delivered = s.accepted) :=
  fifo_round_trip.1 4 _ (by decide) (by decide)

/-! ## Lemmas on the driver -/

theorem main_setup_mode (s_read_mode : Char) (env : MainEnv) :
    (main_setup s_read_mode env).s_read_mode = s_read_mode ∧
    (main_setup s_read_mode env).events.head? = some Event.call_create := by
  unfold main_setup
  split_ifs <;> exact ⟨rfl, rfl⟩

theorem printed_bytes_append (a b : List Event) :
    printed_bytes (a ++ b) = printed_bytes a ++ printed_bytes b := by
  induction a with
  | nil => rfl
  | cons e es ih =>
    cases e with
    | printf fmt args =>
      simp only [List.cons_append, printed_bytes]
      split_ifs <;> simp [ih]
    | _ => simpa only [List.cons_append, printed_bytes] using ih

theorem printed_bytes_print_bytes (buf : List uint8_t) (n : Nat) (h : n ≤ buf.length) :
    printed_bytes (print_bytes buf n) = (buf.take n).map Int.ofNat := by
  have gen : ∀ l : List Nat,
      printed_bytes (l.map fun i => Event.printf "0x%02X " [((buf.getD i 0 : Nat) : Int)]) =
        l.map fun i => ((buf.getD i 0 : Nat) : Int) := by
    intro l
    induction l with
    | nil => rfl
    | cons i l ih =>
      rw [List.map_cons, List.map_cons, printed_bytes, if_pos rfl, ih]
      rfl
  unfold print_bytes
  rw [gen]
  apply List.ext_getElem
  · simp [h]
  · intro i h1 h2
    simp only [List.length_map, List.length_range] at h1
    simp [List.getD_eq_getElem?_getD, List.getElem?_eq_getElem (lt_of_lt_of_le h1 h)]

theorem is_call_print_bytes (buf : List uint8_t) (n : Nat) :
    (print_bytes buf n).filter Event.is_call = [] := by
  simp [print_bytes, List.filter_eq_nil_iff, Event.is_call]

/-- C6: the read mode of `main` defaults to `'b'` when no argument is given
(`argc ≤ 1`), and `main` then goes on to create the buffer; for `argc > 1` the mode is
the first character of `argv[1]`, `main` prints the invalid-mode message and returns
`-1` with no buffer created if and only if that character is neither `'b'` nor `'n'`,
and otherwise goes on to create the buffer with that mode; an empty `argv[1]` is
rejected. -/
theorem main_read_mode (argv : List (List Char)) (env : MainEnv) :
    (argv.length ≤ 1 →
      (main argv env).s_read_mode = 'b' ∧
      (main argv env).events.head? = some Event.call_create) ∧
    (1 < argv.length →
      (main argv env).s_read_mode = first_char (argv.getD 1 []) ∧
      ((first_char (argv.getD 1 []) ≠ 'b' ∧ first_char (argv.getD 1 []) ≠ 'n') ↔
        ((main argv env).events = [Event.printf "invalid read mode. use 'b' or 'n'\n" []] ∧
         (main argv env).outcome = .returned (-1))) ∧
      ((first_char (argv.getD 1 []) = 'b' ∨ first_char (argv.getD 1 []) = 'n') →
        (main argv env).events.head? = some Event.call_create) ∧
      (argv.getD 1 [] = [] →
        (main argv env).events = [Event.printf "invalid read mode. use 'b' or 'n'\n" []] ∧
        (main argv env).outcome = .returned (-1))) := by
  constructor
  · intro h
    have h1 : ¬ argv.length > 1 := by omega
    simp only [main, h1, if_false]
    exact main_setup_mode _ env
  · intro h
    have h1 : argv.length > 1 := h
    by_cases hc : first_char (argv.getD 1 []) ≠ 'b' ∧ first_char (argv.getD 1 []) ≠ 'n'
    · have e : main argv env =
          { s_read_mode := first_char (argv.getD 1 [])
            events := [Event.printf "invalid read mode. use 'b' or 'n'\n" []]
            outcome := .returned (-1) } := by
        simp only [main, h1, if_true, hc, ne_eq, not_false_eq_true, and_self]
      rw [e]
      refine ⟨rfl, ⟨fun _ => ⟨rfl, rfl⟩, fun _ => hc⟩, ?_, fun _ => ⟨rfl, rfl⟩⟩
      rintro (hb | hn)
      · exact absurd hb hc.1
      · exact absurd hn hc.2
    · have e : main argv env = main_setup (first_char (argv.getD 1 [])) env := by
        simp only [main, h1, if_true, hc, if_false]
      rw [e]
      obtain ⟨m, hd⟩ := main_setup_mode (first_char (argv.getD 1 [])) env
      refine ⟨m, ⟨fun hc1 => absurd hc1 hc, ?_⟩, fun _ => hd, ?_⟩
      · rintro ⟨ev, _⟩
        rw [ev] at hd
        exact absurd hd (by decide)
      · intro hempty
        rw [hempty] at hc
        exact absurd (by decide) hc

/-- Witness of C6: `./demo n` selects mode `'n'` and goes on to create the buffer,
`./demo x` is rejected. -/
theorem main_read_mode_witness :
    ((main [['d', 'e', 'm', 'o'], ['n']] ⟨true, 0, 0⟩).s_read_mode = first_char ['n'] ∧
     (main [['d', 'e', 'm', 'o'], ['n']] ⟨true, 0, 0⟩).events.head? = some Event.call_create) ∧
    ((main [['d', 'e', 'm', 'o'], ['x']] ⟨true, 0, 0⟩).events =
        [Event.printf "invalid read mode. use 'b' or 'n'\n" []] ∧
     (main [['d', 'e', 'm', 'o'], ['x']] ⟨true, 0, 0⟩).outcome = .returned (-1)) :=
  ⟨⟨((main_read_mode [['d', 'e', 'm', 'o'], ['n']] ⟨true, 0, 0⟩).2 (by decide)).1,
    ((main_read_mode [['d', 'e', 'm', 'o'], ['n']] ⟨true, 0, 0⟩).2 (by decide)).2.2.1
      (Or.inr rfl)⟩,
   ((main_read_mode [['d', 'e', 'm', 'o'], ['x']] ⟨true, 0, 0⟩).2 (by decide)).2.1.mp
     ⟨by decide, by decide⟩⟩

/-- C7: `hs_time_get_current_timestamp_ms` returns 0 on success and a negative value
on failure: `-1` without reading the clock when `timestamp_ms` is NULL; `-2` with
`*timestamp_ms` unchanged when `clock_gettime` fails; otherwise 0, and for a clock
reading with `tv_sec ≥ 0`, `0 ≤ tv_nsec < 10^9` and `tv_sec * 1000` within the signed
64-bit range the stored value is `tv_sec * 1000 + tv_nsec / 1000000`, which is
`floor((tv_sec * 10^9 + tv_nsec) / 10^6)`. -/
theorem timestamp_ms_result :
    (∀ clock, hs_time_get_current_timestamp_ms none clock =
      { ret := -1, timestamp_ms := none, clock_read := false }) ∧
    (∀ old, hs_time_get_current_timestamp_ms (some old) none =
      { ret := -2, timestamp_ms := some old, clock_read := true }) ∧
    (∀ old time_spec, (hs_time_get_current_timestamp_ms (some old) (some time_spec)).ret = 0) ∧
    (∀ timestamp_ms clock,
      (hs_time_get_current_timestamp_ms timestamp_ms clock).ret = 0 ∨
      (hs_time_get_current_timestamp_ms timestamp_ms clock).ret < 0) ∧
    (∀ (old : Nat) (tv_sec tv_nsec : Int), 0 ≤ tv_sec → 0 ≤ tv_nsec → tv_nsec < 10 ^ 9 →
      tv_sec * 1000 < 2 ^ 63 →
      (hs_time_get_current_timestamp_ms (some old)
          (some { tv_sec := tv_sec, tv_nsec := tv_nsec })).timestamp_ms =
        some (tv_sec * 1000 + tv_nsec / 1000000).toNat ∧
      tv_sec * 1000 + tv_nsec / 1000000 = (tv_sec * 10 ^ 9 + tv_nsec) / 10 ^ 6) := by
  refine ⟨fun _ => rfl, fun _ => rfl, fun _ _ => rfl, ?_, ?_⟩
  · intro timestamp_ms clock
    cases timestamp_ms with
    | none => exact Or.inr (show (-1 : Int) < 0 by decide)
    | some old =>
      cases clock with
      | none => exact Or.inr (show (-2 : Int) < 0 by decide)
      | some ts => exact Or.inl rfl
  · intro old tv_sec tv_nsec hs hn hn9 hov
    have hd : Int.tdiv tv_nsec 1000000 = tv_nsec / 1000000 :=
      Int.tdiv_eq_ediv hn (by decide)
    constructor
    · simp only [hs_time_get_current_timestamp_ms, hd, wrap_i64, to_u64]
      norm_num at hov hn9 ⊢
      omega
    · norm_num at hn9 ⊢
      omega

/-- Witness of C7: the clock reads 1 700 000 000 s and 123 456 789 ns; the stored
value is 1 700 000 000 123 ms. -/
theorem timestamp_ms_result_witness :
    (hs_time_get_current_timestamp_ms (some 0)
        (some { tv_sec := 1700000000, tv_nsec := 123456789 })).timestamp_ms =
      some (1700000000 * 1000 + 123456789 / 1000000 : Int).toNat ∧
    (1700000000 * 1000 + 123456789 / 1000000 : Int) =
      (1700000000 * 10 ^ 9 + 123456789) / 10 ^ 6 :=
  timestamp_ms_result.2.2.2.2 0 1700000000 123456789 (by decide) (by decide) (by decide)
    (by decide)

/-- C9: in every iteration of the consumer loop, mode `'b'` calls the fully blocking
read with a zeroed 10-byte destination and `max_len = 10`, mode `'n'` calls
`read_with_timeout` with a zeroed 10-byte destination, `max_len = 10` and a timeout of
600 ms; whatever the mode and the outcome, exactly one of the two reads is called;
and when the read returns `ret > 0` (at most the 10 bytes of the destination) the
bytes printed are exactly the first `ret` bytes of the destination, while nothing is
printed as data when `ret ≤ 0`. -/
theorem consumer_mode_dispatch (s_read_mode : Char) (clock : Option timespec) (ret : Int)
    (read_data : List uint8_t) :
    (s_read_mode = 'b' →
      (consumer_iteration s_read_mode clock ret read_data).filter Event.is_call =
        [Event.call_read [0, 0, 0, 0, 0, 0, 0, 0, 0, 0] 10]) ∧
    (s_read_mode = 'n' →
      (consumer_iteration s_read_mode clock ret read_data).filter Event.is_call =
        [Event.call_read_with_timeout [0, 0, 0, 0, 0, 0, 0, 0, 0, 0] 10 600]) ∧
    ((consumer_iteration s_read_mode clock ret read_data).filter Event.is_call).length = 1 ∧
    (0 < ret → ret.toNat ≤ read_data.length →
      printed_bytes (consumer_iteration s_read_mode clock ret read_data) =
        (read_data.take ret.toNat).map Int.ofNat) ∧
    (ret ≤ 0 → printed_bytes (consumer_iteration s_read_mode clock ret read_data) = []) := by
  have calls_b : s_read_mode = 'b' →
      (consumer_iteration s_read_mode clock ret read_data).filter Event.is_call =
        [Event.call_read [0, 0, 0, 0, 0, 0, 0, 0, 0, 0] 10] := by
    intro hm
    simp only [consumer_iteration, hm, if_true, List.filter_cons, Event.is_call]
    split_ifs <;>
      simp [List.filter_append, is_call_print_bytes, Event.is_call, List.replicate]
  have calls_n : s_read_mode ≠ 'b' →
      (consumer_iteration s_read_mode clock ret read_data).filter Event.is_call =
        [Event.call_read_with_timeout [0, 0, 0, 0, 0, 0, 0, 0, 0, 0] 10 600] := by
    intro hm
    simp only [consumer_iteration, hm, if_false, List.filter_cons, Event.is_call]
    split_ifs <;>
      simp [List.filter_append, is_call_print_bytes, Event.is_call, List.replicate]
  refine ⟨calls_b, ?_, ?_, ?_, ?_⟩
  · intro hm
    exact calls_n (by rw [hm]; decide)
  · by_cases hm : s_read_mode = 'b'
    · rw [calls_b hm]; rfl
    · rw [calls_n hm]; rfl
  · intro hpos hlen
    by_cases hm : s_read_mode = 'b' <;>
      simp [consumer_iteration, hm, hpos, printed_bytes, printed_bytes_append,
        printed_bytes_print_bytes read_data ret.toNat hlen]
  · intro hle
    have hnot : ¬ ret > 0 := not_lt.mpr hle
    by_cases hm : s_read_mode = 'b'
    · simp [consumer_iteration, hm, hnot, printed_bytes]
    · by_cases h0 : ret = 0 <;> simp [consumer_iteration, hm, hnot, h0, printed_bytes]

/-- Witness of C9: mode `'n'`, the timed read returns 3 and leaves `[1, 2, 3]` at the
front of the destination: the bytes printed are `1, 2, 3`. -/
theorem consumer_mode_dispatch_witness :
    (consumer_iteration 'n' none 3 [1, 2, 3, 0, 0, 0, 0, 0, 0, 0]).filter Event.is_call =
      [Event.call_read_with_timeout [0, 0, 0, 0, 0, 0, 0, 0, 0, 0] 10 600] ∧
    printed_bytes (consumer_iteration 'n' none 3 [1, 2, 3, 0, 0, 0, 0, 0, 0, 0]) =
      ([1, 2, 3, 0, 0, 0, 0, 0, 0, 0].take (3 : Int).toNat).map Int.ofNat :=
  ⟨(consumer_mode_dispatch 'n' none 3 [1, 2, 3, 0, 0, 0, 0, 0, 0, 0]).2.1 rfl,
   (consumer_mode_dispatch 'n' none 3 [1, 2, 3, 0, 0, 0, 0, 0, 0, 0]).2.2.2.1 (by decide)
     (by decide)⟩

/-- C10: in every iteration of the producer loop `main` calls `write` once, with
the fixed payload `0x01..0x0A` and length 10, and prints the write-failed message if
and only if the `ssize_t` returned by `write` differs from 10, for every `ssize_t`
value, the negative ones included, although the comparison is made after converting
the return value to `size_t` (modulo `2 ^ 64`). -/
theorem producer_failure_reporting (clock : Option timespec) (ret : Int)
    (hlo : -2 ^ 63 ≤ ret) (hhi : ret < 2 ^ 63) :
    (producer_iteration clock ret).filter Event.is_call =
      [Event.call_write [1, 2, 3, 4, 5, 6, 7, 8, 9, 10] 10] ∧
    (Event.printf "write data to ring buffer failed. ret: %ld\n" [ret] ∈
      producer_iteration clock ret ↔ ret ≠ 10) ∧
    (to_u64 ret = 10 ↔ ret = 10) := by
  have hconv : to_u64 ret = 10 ↔ ret = 10 := by
    unfold to_u64
    norm_num at hlo hhi ⊢
    omega
  have hlen : s_write_data.length = 10 := rfl
  refine ⟨?_, ?_, hconv⟩
  · simp only [producer_iteration, List.filter_append, is_call_print_bytes, hlen]
    by_cases h : to_u64 ret = 10 <;> simp [h, Event.is_call, s_write_data]
  · simp only [producer_iteration, hlen]
    by_cases h : to_u64 ret = 10
    · have h10 := hconv.mp h
      have h' : to_u64 10 = 10 := by rw [← h10]; exact h
      simp [h10, h', print_bytes]
    · have h10 : ret ≠ 10 := fun e => h (hconv.mpr e)
      simp [h, h10]

/-- Witness of C10: `write` fails with the error code `-1`; the converted value
`2 ^ 64 - 1` differs from 10 and the message is printed. -/
theorem producer_failure_reporting_witness :
    Event.printf "write data to ring buffer failed. ret: %ld\n" [-1] ∈
      producer_iteration none (-1) :=
  (producer_failure_reporting none (-1) (by decide) (by decide)).2.1.mpr (by decide)

end HsRingBufferDemo
